import Mathlib

/-!
Verification of the anti-aliased rasterization core of PicMounter
(`src/pic_mounter/draw.py`) against its natural-language specification.

The Python source is shallowly embedded as follows:
* float arithmetic is modelled as exact arithmetic (ℚ for the compositing
  algebra, ℝ for the geometry and rasterizers, which call `math.sqrt` through
  `math.dist` / `math.hypot`);
* a Python expression that can raise (`ZeroDivisionError` from `x / 0.0`,
  `ValueError` from `PIL.Image.new` on a negative size) is modelled as an
  `Option`-valued function returning `none` exactly when the source raises;
* a PIL `RGBA` image is modelled as a `Layer`: integer dimensions plus a
  total pixel function that is transparent outside the allocated rectangle
  (freshly allocated images are fully transparent, and the rasterizers skip
  zero-coverage pixels, leaving them at the transparent initial value);
* `Python round` (banker's rounding, ties to even) is `pyRound`;
* the steep branch of `get_line_image` calls itself once on the transposed
  segment; the callee provably takes the shallow branch, so the recursion is
  unrolled: `get_line_image_core` is the body below the steep test and
  `get_line_image` performs the single axis-swap dispatch, exactly as in the
  source.
-/

set_option maxHeartbeats 1000000

namespace PicMounter

/-- An RGBA pixel as stored in a PIL `'RGBA'` image: four integer channels. -/
structure Pixel where
  r : ℤ
  g : ℤ
  b : ℤ
  a : ℤ
deriving DecidableEq

/-- A freshly allocated `Image.new('RGBA', _)` pixel: fully transparent. -/
def Pixel.transparent : Pixel := ⟨0, 0, 0, 0⟩

/-- `RGBA_T` from the source: a color as four (exact) numbers. -/
abbrev RGBA_T := ℚ × ℚ × ℚ × ℚ

/-- `mix_number` from the source: plain linear interpolation. -/
def mix_number (foreground background alpha : ℚ) : ℚ :=
  foreground * alpha + background * (1 - alpha)

/-- `mix_color_alpha` from the source: the composited result alpha. -/
def mix_color_alpha (foreground_alpha background_alpha alpha : ℚ) : ℚ :=
  background_alpha + alpha * foreground_alpha
    - background_alpha * alpha * foreground_alpha

/-- `mix_color_number` from the source: one channel of the generalized
Porter-Duff mix.  The Python division raises `ZeroDivisionError` when the
denominator (the composited result alpha) is zero; this is modelled by
`none`. -/
def mix_color_number (foreground_number foreground_alpha background_number
    background_alpha alpha : ℚ) : Option ℚ :=
  if background_alpha + alpha * foreground_alpha
      - background_alpha * alpha * foreground_alpha = 0 then none
  else some ((background_number * background_alpha * (1 - alpha * foreground_alpha)
      + foreground_number * alpha * foreground_alpha)
    / (background_alpha + alpha * foreground_alpha
      - background_alpha * alpha * foreground_alpha))

/-- `mix_color` from the source: short-circuits `alpha == 0` and `alpha == 1`,
otherwise mixes the three channels with `mix_color_number` (propagating its
`ZeroDivisionError`) and appends `mix_color_alpha`. -/
def mix_color (foreground background : RGBA_T) (alpha : ℚ) : Option RGBA_T :=
  if alpha = 0 then some background
  else if alpha = 1 then some foreground
  else
    match mix_color_number foreground.1 foreground.2.2.2
            background.1 background.2.2.2 alpha,
          mix_color_number foreground.2.1 foreground.2.2.2
            background.2.1 background.2.2.2 alpha,
          mix_color_number foreground.2.2.1 foreground.2.2.2
            background.2.2.1 background.2.2.2 alpha with
    | some red, some green, some blue =>
        some (red, green, blue,
          mix_color_alpha foreground.2.2.2 background.2.2.2 alpha)
    | _, _, _ => none

/-- A PIL `RGBA` image: a width, a height and the stored pixels (transparent
outside the `[0, width) × [0, height)` rectangle, matching the transparent
initial fill of `Image.new`). -/
structure Layer where
  width : ℤ
  height : ℤ
  pix : ℤ → ℤ → Pixel

/-- `Image.transpose(Image.Transpose.TRANSVERSE)`: flip across the
anti-diagonal, i.e. the output pixel `(x, y)` is the input pixel
`(width - 1 - y, height - 1 - x)`. -/
def transverse (image : Layer) : Layer :=
  ⟨image.height, image.width, fun x y =>
    if 0 ≤ x ∧ x < image.height ∧ 0 ≤ y ∧ y < image.width then
      image.pix (image.width - 1 - y) (image.height - 1 - x)
    else Pixel.transparent⟩

end PicMounter

noncomputable section

namespace PicMounter

/-- Python `round`: round to the nearest integer, ties to the even integer. -/
def pyRound (x : ℝ) : ℤ :=
  if x - ⌊x⌋ < 1 / 2 then ⌊x⌋
  else if 1 / 2 < x - ⌊x⌋ then ⌊x⌋ + 1
  else if Even ⌊x⌋ then ⌊x⌋ else ⌊x⌋ + 1

/-- `math.dist`: the Euclidean distance of two 2-D points. -/
def dist_2d (p q : ℝ × ℝ) : ℝ :=
  Real.sqrt ((p.1 - q.1) ^ 2 + (p.2 - q.2) ^ 2)

/-- `math.hypot` on two arguments. -/
def hypot (a b : ℝ) : ℝ := Real.sqrt (a ^ 2 + b ^ 2)

/-- `calc_alpha` from the source: the analytic coverage model. -/
def calc_alpha (radius distance : ℝ) : ℝ :=
  if distance ≤ radius - 1 / 2 then 1
  else if radius + 1 / 2 ≤ distance then 0
  else radius + 1 / 2 - distance

/-- `dot_product_2d` from the source. -/
def dot_product_2d (vector_0 vector_1 : ℝ × ℝ) : ℝ :=
  vector_0.1 * vector_1.1 + vector_0.2 * vector_1.2

/-- `distance_point_to_line_ABC` from the source: distance from a point to the
line `Ax + By + C = 0`.  The Python division raises `ZeroDivisionError` when
`hypot(A, B) == 0`; this is modelled by `none`. -/
def distance_point_to_line_ABC (point : ℝ × ℝ) (line_A line_B line_C : ℝ)
    (abs_ : Bool := true) : Option ℝ :=
  if hypot line_A line_B = 0 then none
  else
    some (if abs_ then |(line_A * point.1 + line_B * point.2 + line_C) / hypot line_A line_B|
      else (line_A * point.1 + line_B * point.2 + line_C) / hypot line_A line_B)

/-- `distance_point_to_line_xy` from the source: distance to the infinite line
through the two given points, via the cross-product line coefficients. -/
def distance_point_to_line_xy (point : ℝ × ℝ) (line_xy : (ℝ × ℝ) × (ℝ × ℝ)) :
    Option ℝ :=
  distance_point_to_line_ABC point
    (line_xy.2.2 - line_xy.1.2)
    (line_xy.1.1 - line_xy.2.1)
    (line_xy.2.1 * line_xy.1.2 - line_xy.1.1 * line_xy.2.2)

/-- `distance_point_to_line_segment` from the source: endpoint-clamped
point-to-segment distance. -/
def distance_point_to_line_segment (point : ℝ × ℝ)
    (line_xy : (ℝ × ℝ) × (ℝ × ℝ)) : Option ℝ :=
  if dot_product_2d (line_xy.2.1 - line_xy.1.1, line_xy.2.2 - line_xy.1.2)
      (point.1 - line_xy.1.1, point.2 - line_xy.1.2) < 0 then
    some (dist_2d point line_xy.1)
  else if 0 ≤ dot_product_2d (line_xy.2.1 - line_xy.1.1, line_xy.2.2 - line_xy.1.2)
      (point.1 - line_xy.2.1, point.2 - line_xy.2.2) then
    some (dist_2d point line_xy.2)
  else
    distance_point_to_line_xy point line_xy

/-- `_get_circle_image` from the source: the circle rasterizer.  The `color`
argument is the already-parsed `ImageColor.getcolor(color, 'RGBA')` value.
`Image.new` raises `ValueError` on a negative size (modelled by `none`);
pixels with zero coverage are skipped, leaving the transparent initial
value. -/
def _get_circle_image (center : ℝ × ℝ) (radius : ℝ) (color : Pixel) :
    Option (Layer × (ℤ × ℤ)) :=
  let left_x : ℤ := ⌊center.1 - radius⌋
  let right_x : ℤ := ⌈center.1 + radius⌉
  let top_y : ℤ := ⌊center.2 - radius⌋
  let bottom_y : ℤ := ⌈center.2 + radius⌉
  let layer_width : ℤ := right_x - left_x
  let layer_height : ℤ := bottom_y - top_y
  if layer_width < 0 ∨ layer_height < 0 then none
  else
    some (⟨layer_width, layer_height, fun x_in_layer y_in_layer =>
      if 0 ≤ x_in_layer ∧ x_in_layer < layer_width ∧
          0 ≤ y_in_layer ∧ y_in_layer < layer_height then
        let x : ℝ := (x_in_layer : ℝ) + (left_x : ℝ) + 1 / 2
        let y : ℝ := (y_in_layer : ℝ) + (top_y : ℝ) + 1 / 2
        let alpha : ℝ := calc_alpha radius (dist_2d center (x, y))
        if alpha = 0 then Pixel.transparent
        else ⟨color.r, color.g, color.b, pyRound ((color.a : ℝ) * alpha)⟩
      else Pixel.transparent⟩,
      (left_x, top_y))

/-- `_get_circle_image_with_cache` from the source: an `lru_cache` wrapper;
memoization is value-transparent, so it is the cached function itself. -/
def _get_circle_image_with_cache (center : ℝ × ℝ) (radius : ℝ) (color : Pixel) :
    Option (Layer × (ℤ × ℤ)) :=
  _get_circle_image center radius color

/-- `get_circle_image` from the source: routes the canonical center
`(1/2, 1/2)` through the cache and everything else to the direct
computation. -/
def get_circle_image (center : ℝ × ℝ) (radius : ℝ) (color : Pixel) :
    Option (Layer × (ℤ × ℤ)) :=
  if center = (1 / 2, 1 / 2) then _get_circle_image_with_cache center radius color
  else _get_circle_image center radius color

/-- The body of `get_line_image` from the source below the steepness test
(the source reaches this code only when `|Δy| ≤ |Δx|`; the steep dispatch is
`get_line_image` below).  The slope division raises `ZeroDivisionError` when
`Δx == 0` and `Image.new` raises `ValueError` on a negative size, both
modelled by `none`.  The per-column scan is restricted to the
`possible_min ≤ y < possible_max` band exactly as in the source. -/
def get_line_image_core (line_xy : (ℝ × ℝ) × (ℝ × ℝ)) (color : Pixel)
    (width : ℝ) : Option (Layer × (ℤ × ℤ)) :=
  let x0 := line_xy.1.1
  let y0 := line_xy.1.2
  let x1 := line_xy.2.1
  let y1 := line_xy.2.2
  let delta_x := x1 - x0
  let delta_y := y1 - y0
  if delta_x = 0 then none
  else
    let slope := delta_y / delta_x
    let sec_alpha := hypot 1 slope
    let left_x : ℤ := ⌊min x0 x1 - width / 2⌋
    let right_x : ℤ := ⌈max x0 x1 + width / 2⌉
    let top_y : ℤ := ⌊min y0 y1 - width / 2⌋
    let bottom_y : ℤ := ⌈max y0 y1 + width / 2⌉
    let layer_width : ℤ := right_x - left_x
    let layer_height : ℤ := bottom_y - top_y
    if layer_width < 0 ∨ layer_height < 0 then none
    else
      some (⟨layer_width, layer_height, fun x_in_layer y_in_layer =>
        if 0 ≤ x_in_layer ∧ x_in_layer < layer_width then
          let x : ℝ := (x_in_layer : ℝ) + (left_x : ℝ) + 1 / 2
          let intersection_y : ℝ := slope * (x - x0) + y0
          let down_border : ℝ := intersection_y - (width / 2 + 1 / 2) * sec_alpha
          let up_border : ℝ := intersection_y + (width / 2 + 1 / 2) * sec_alpha
          let possible_min : ℤ := max 0 (pyRound down_border - top_y)
          let possible_max : ℤ := min layer_height (pyRound up_border - top_y)
          if possible_min ≤ y_in_layer ∧ y_in_layer < possible_max then
            let y : ℝ := (y_in_layer : ℝ) + (top_y : ℝ) + 1 / 2
            let alpha : ℝ := calc_alpha (width / 2)
              ((distance_point_to_line_segment (x, y) line_xy).getD 0)
            if alpha = 0 then Pixel.transparent
            else ⟨color.r, color.g, color.b, pyRound ((color.a : ℝ) * alpha)⟩
          else Pixel.transparent
        else Pixel.transparent⟩,
        (left_x, top_y))

/-- Modelled from the spec: the unoptimized variant of the line rasterizer
body that scans every row of every column of the patch (no
`possible_min`/`possible_max` band restriction); the comparison point for the
per-column scan-band optimization of `get_line_image_core`. -/
def get_line_image_fullscan (line_xy : (ℝ × ℝ) × (ℝ × ℝ)) (color : Pixel)
    (width : ℝ) : Option (Layer × (ℤ × ℤ)) :=
  let x0 := line_xy.1.1
  let y0 := line_xy.1.2
  let x1 := line_xy.2.1
  let y1 := line_xy.2.2
  let delta_x := x1 - x0
  if delta_x = 0 then none
  else
    let left_x : ℤ := ⌊min x0 x1 - width / 2⌋
    let right_x : ℤ := ⌈max x0 x1 + width / 2⌉
    let top_y : ℤ := ⌊min y0 y1 - width / 2⌋
    let bottom_y : ℤ := ⌈max y0 y1 + width / 2⌉
    let layer_width : ℤ := right_x - left_x
    let layer_height : ℤ := bottom_y - top_y
    if layer_width < 0 ∨ layer_height < 0 then none
    else
      some (⟨layer_width, layer_height, fun x_in_layer y_in_layer =>
        if 0 ≤ x_in_layer ∧ x_in_layer < layer_width then
          let x : ℝ := (x_in_layer : ℝ) + (left_x : ℝ) + 1 / 2
          if 0 ≤ y_in_layer ∧ y_in_layer < layer_height then
            let y : ℝ := (y_in_layer : ℝ) + (top_y : ℝ) + 1 / 2
            let alpha : ℝ := calc_alpha (width / 2)
              ((distance_point_to_line_segment (x, y) line_xy).getD 0)
            if alpha = 0 then Pixel.transparent
            else ⟨color.r, color.g, color.b, pyRound ((color.a : ℝ) * alpha)⟩
          else Pixel.transparent
        else Pixel.transparent⟩,
        (left_x, top_y))

/-- `get_line_image` from the source.  On a steep segment (`|Δy| > |Δx|`) it
calls itself once on the coordinate-swapped segment — which is then provably
not steep, so that single recursive call is unrolled to
`get_line_image_core` — applies `TRANSVERSE` to the resulting image and swaps
the offset coordinates back. -/
def get_line_image (line_xy : (ℝ × ℝ) × (ℝ × ℝ)) (color : Pixel) (width : ℝ) :
    Option (Layer × (ℤ × ℤ)) :=
  if |line_xy.2.2 - line_xy.1.2| > |line_xy.2.1 - line_xy.1.1| then
    match get_line_image_core ((line_xy.1.2, line_xy.1.1),
        (line_xy.2.2, line_xy.2.1)) color width with
    | none => none
    | some (image, destination) =>
        some (transverse image, (destination.2, destination.1))
  else get_line_image_core line_xy color width

/-- The destination RGBA buffer mutated by the draw dispatchers. -/
structure Buffer where
  pix : ℤ → ℤ → Pixel

/-- The exceptions a draw dispatcher can raise: the `raise ValueError` of the
`case _` arm of the quality-tier `match` (a configuration error), and an
error escaping from the invoked rasterizer. -/
inductive DrawError where
  | invalidConfig : DrawError
  | imageError : DrawError
deriving DecidableEq

/-- `draw_circle` from the source.  The PIL primitives it delegates to —
`ImageDraw.ellipse` for the `'off'` tier and `Image.alpha_composite` — are
external collaborators, passed in as function arguments.  A raised exception
is modelled by `Except.error`; mutation of `image` is modelled by returning
the new buffer in `Except.ok`, so an error leaves the buffer untouched. -/
def draw_circle (ellipse : Buffer → (ℤ × ℤ) × (ℤ × ℤ) → Pixel → Buffer)
    (alpha_composite : Buffer → Layer → ℤ × ℤ → Buffer)
    (image : Buffer) (center : ℝ × ℝ) (radius : ℝ) (color : Pixel)
    (anti_alias : String) : Except DrawError Buffer :=
  if anti_alias = "off" then
    .ok (ellipse image
      ((pyRound (center.1 - radius), pyRound (center.2 - radius)),
       (pyRound (center.1 + radius), pyRound (center.2 + radius))) color)
  else if anti_alias = "fast" then
    match get_circle_image (1 / 2, 1 / 2) radius color with
    | none => .error .imageError
    | some (circle_image, destination) =>
        .ok (alpha_composite image circle_image
          (⌊center.1⌋ + destination.1, ⌊center.2⌋ + destination.2))
  else if anti_alias = "accurate" then
    match get_circle_image center radius color with
    | none => .error .imageError
    | some (circle_image, destination) =>
        .ok (alpha_composite image circle_image destination)
  else .error .invalidConfig

/-- `draw_line` from the source; external PIL primitives passed in as for
`draw_circle`. -/
def draw_line (line_native : Buffer → (ℤ × ℤ) × (ℤ × ℤ) → Pixel → ℤ → Buffer)
    (alpha_composite : Buffer → Layer → ℤ × ℤ → Buffer)
    (image : Buffer) (line_xy : (ℝ × ℝ) × (ℝ × ℝ)) (width : ℝ) (color : Pixel)
    (anti_alias : String) : Except DrawError Buffer :=
  if anti_alias = "off" then
    .ok (line_native image
      ((⌊line_xy.1.1⌋, ⌊line_xy.1.2⌋), (⌊line_xy.2.1⌋, ⌊line_xy.2.2⌋))
      color (pyRound width))
  else if anti_alias = "accurate" then
    match get_line_image line_xy color width with
    | none => .error .imageError
    | some (line_image, destination) =>
        .ok (alpha_composite image line_image destination)
  else .error .invalidConfig

end PicMounter

end

namespace PicMounter

/-! ## Helper lemmas -/

theorem pyRound_le (x : ℝ) : (pyRound x : ℝ) ≤ x + 1 / 2 := by
  have h1 := Int.floor_le x
  have h2 := Int.lt_floor_add_one x
  unfold pyRound
  split_ifs <;> push_cast <;> linarith

theorem le_pyRound (x : ℝ) : x - 1 / 2 ≤ (pyRound x : ℝ) := by
  have h1 := Int.floor_le x
  have h2 := Int.lt_floor_add_one x
  unfold pyRound
  split_ifs <;> push_cast <;> linarith

theorem dist_2d_nonneg (p q : ℝ × ℝ) : 0 ≤ dist_2d p q :=
  Real.sqrt_nonneg _

theorem dist_2d_sq (p q : ℝ × ℝ) :
    dist_2d p q ^ 2 = (p.1 - q.1) ^ 2 + (p.2 - q.2) ^ 2 :=
  Real.sq_sqrt (by positivity)

theorem abs_fst_le_dist_2d (p q : ℝ × ℝ) : |p.1 - q.1| ≤ dist_2d p q := by
  rw [dist_2d, ← Real.sqrt_sq_eq_abs]
  exact Real.sqrt_le_sqrt (by nlinarith [sq_nonneg (p.2 - q.2)])

theorem abs_snd_le_dist_2d (p q : ℝ × ℝ) : |p.2 - q.2| ≤ dist_2d p q := by
  rw [dist_2d, ← Real.sqrt_sq_eq_abs]
  exact Real.sqrt_le_sqrt (by nlinarith [sq_nonneg (p.1 - q.1)])

theorem dist_2d_pos {p q : ℝ × ℝ} (h : p ≠ q) : 0 < dist_2d p q := by
  rw [dist_2d]
  apply Real.sqrt_pos.mpr
  rcases (not_and_or.mp (fun hc => h (Prod.ext hc.1 hc.2))) with h1 | h1
  · have hne : p.1 - q.1 ≠ 0 := sub_ne_zero.mpr h1
    nlinarith [sq_nonneg (p.2 - q.2), sq_pos_of_ne_zero hne]
  · have hne : p.2 - q.2 ≠ 0 := sub_ne_zero.mpr h1
    nlinarith [sq_nonneg (p.1 - q.1), sq_pos_of_ne_zero hne]

theorem sumsq_pos {A B : ℝ × ℝ} (h : A ≠ B) :
    0 < (B.1 - A.1) ^ 2 + (B.2 - A.2) ^ 2 := by
  have := dist_2d_pos (fun hc => h hc.symm)
  calc (0:ℝ) < dist_2d B A ^ 2 := by positivity
    _ = (B.1 - A.1) ^ 2 + (B.2 - A.2) ^ 2 := dist_2d_sq B A

theorem hypot_line_coeffs (x0 y0 x1 y1 : ℝ) :
    hypot (y1 - y0) (x0 - x1) = dist_2d (x0, y0) (x1, y1) := by
  unfold hypot dist_2d
  congr 1
  ring

/-- The infinite-line distance of the source, written as the cross product of
the segment direction with the point offset over the segment length. -/
theorem distance_point_to_line_xy_eq (px py x0 y0 x1 y1 : ℝ)
    (h : ((x0, y0) : ℝ × ℝ) ≠ (x1, y1)) :
    distance_point_to_line_xy (px, py) ((x0, y0), (x1, y1)) =
      some (|(x1 - x0) * (py - y0) - (y1 - y0) * (px - x0)| /
        dist_2d (x0, y0) (x1, y1)) := by
  have hD : 0 < dist_2d (x0, y0) (x1, y1) := dist_2d_pos h
  have hnum : (y1 - y0) * px + (x0 - x1) * py + (x1 * y0 - x0 * y1)
      = -((x1 - x0) * (py - y0) - (y1 - y0) * (px - x0)) := by ring
  unfold distance_point_to_line_xy distance_point_to_line_ABC
  simp only [hypot_line_coeffs]
  rw [if_neg (by positivity)]
  simp only [if_true]
  rw [hnum, Option.some.injEq, neg_div, abs_neg, abs_div, abs_of_pos hD]

/-- The distance from a point to its orthogonal projection on the line
through `(x0, y0)` and `(x1, y1)` equals the cross-product distance
formula. -/
theorem dist_foot_eq (px py x0 y0 x1 y1 : ℝ)
    (h : ((x0, y0) : ℝ × ℝ) ≠ (x1, y1)) :
    dist_2d (px, py)
      (x0 + ((x1 - x0) * (px - x0) + (y1 - y0) * (py - y0))
          / ((x1 - x0) ^ 2 + (y1 - y0) ^ 2) * (x1 - x0),
       y0 + ((x1 - x0) * (px - x0) + (y1 - y0) * (py - y0))
          / ((x1 - x0) ^ 2 + (y1 - y0) ^ 2) * (y1 - y0)) =
      |(x1 - x0) * (py - y0) - (y1 - y0) * (px - x0)| /
        dist_2d (x0, y0) (x1, y1) := by
  have hL : 0 < (x1 - x0) ^ 2 + (y1 - y0) ^ 2 := sumsq_pos h
  have hD : dist_2d (x0, y0) (x1, y1) = Real.sqrt ((x1 - x0) ^ 2 + (y1 - y0) ^ 2) := by
    unfold dist_2d
    congr 1
    ring
  rw [hD, dist_2d, ← Real.sqrt_sq_eq_abs, ← Real.sqrt_div (sq_nonneg _)]
  congr 1
  field_simp
  ring

/-- Any point of the infinite line through the segment is at least the
cross-product (perpendicular) distance away, in multiplicative form. -/
theorem cross_le_dist_mul (px py x0 y0 x1 y1 t : ℝ) :
    |(x1 - x0) * (py - y0) - (y1 - y0) * (px - x0)| ≤
      dist_2d (px, py) (x0 + t * (x1 - x0), y0 + t * (y1 - y0)) *
        dist_2d (x0, y0) (x1, y1) := by
  unfold dist_2d
  dsimp only
  rw [← Real.sqrt_mul (by positivity), ← Real.sqrt_sq_eq_abs]
  apply Real.sqrt_le_sqrt
  nlinarith [sq_nonneg ((px - (x0 + t * (x1 - x0))) * (x1 - x0)
    + (py - (y0 + t * (y1 - y0))) * (y1 - y0))]

/-- `distance_point_to_line_segment` always succeeds and returns the distance
to some point of the segment (parametrized by `t ∈ [0, 1]`). -/
theorem distance_point_to_line_segment_exists (P A B : ℝ × ℝ) :
    ∃ t : ℝ, 0 ≤ t ∧ t ≤ 1 ∧
      distance_point_to_line_segment P (A, B)
        = some (dist_2d P (A.1 + t * (B.1 - A.1), A.2 + t * (B.2 - A.2))) := by
  obtain ⟨px, py⟩ := P
  obtain ⟨ax, ay⟩ := A
  obtain ⟨bx, b2⟩ := B
  unfold distance_point_to_line_segment
  dsimp only
  split_ifs with h1 h2
  · refine ⟨0, le_rfl, zero_le_one, ?_⟩
    norm_num
  · refine ⟨1, zero_le_one, le_rfl, ?_⟩
    norm_num
  · have hAB : ((ax, ay) : ℝ × ℝ) ≠ (bx, b2) := by
      intro hc
      obtain ⟨hc1, hc2⟩ := Prod.mk.injEq .. ▸ hc
      apply h2
      simp [dot_product_2d, hc1, hc2]
    have hL : 0 < (bx - ax) ^ 2 + (b2 - ay) ^ 2 := sumsq_pos hAB
    have hrel : dot_product_2d (bx - ax, b2 - ay) (px - ax, py - ay)
        = dot_product_2d (bx - ax, b2 - ay) (px - bx, py - b2)
          + ((bx - ax) ^ 2 + (b2 - ay) ^ 2) := by
      simp only [dot_product_2d]
      ring
    push_neg at h1 h2
    refine ⟨dot_product_2d (bx - ax, b2 - ay) (px - ax, py - ay)
      / ((bx - ax) ^ 2 + (b2 - ay) ^ 2),
      div_nonneg h1 hL.le, (div_le_one hL).mpr (by rw [hrel]; linarith), ?_⟩
    rw [distance_point_to_line_xy_eq px py ax ay bx b2 hAB,
      ← dist_foot_eq px py ax ay bx b2 hAB]
    simp only [dot_product_2d]

/-- The segment distance is bounded below by the coordinate distances to the
segment's coordinate ranges. -/
theorem distance_point_to_line_segment_coord_bounds (P A B : ℝ × ℝ) (d : ℝ)
    (hd : distance_point_to_line_segment P (A, B) = some d) :
    min A.1 B.1 - P.1 ≤ d ∧ P.1 - max A.1 B.1 ≤ d ∧
    min A.2 B.2 - P.2 ≤ d ∧ P.2 - max A.2 B.2 ≤ d := by
  obtain ⟨t, ht0, ht1, heq⟩ := distance_point_to_line_segment_exists P A B
  rw [hd, Option.some.injEq] at heq
  subst heq
  have hx1 : min A.1 B.1 ≤ A.1 + t * (B.1 - A.1) := by
    rcases le_total A.1 B.1 with h | h
    · rw [min_eq_left h]
      nlinarith
    · rw [min_eq_right h]
      nlinarith
  have hx2 : A.1 + t * (B.1 - A.1) ≤ max A.1 B.1 := by
    rcases le_total A.1 B.1 with h | h
    · rw [max_eq_right h]
      nlinarith
    · rw [max_eq_left h]
      nlinarith
  have hy1 : min A.2 B.2 ≤ A.2 + t * (B.2 - A.2) := by
    rcases le_total A.2 B.2 with h | h
    · rw [min_eq_left h]
      nlinarith
    · rw [min_eq_right h]
      nlinarith
  have hy2 : A.2 + t * (B.2 - A.2) ≤ max A.2 B.2 := by
    rcases le_total A.2 B.2 with h | h
    · rw [max_eq_right h]
      nlinarith
    · rw [max_eq_left h]
      nlinarith
  have habsx := abs_fst_le_dist_2d P (A.1 + t * (B.1 - A.1), A.2 + t * (B.2 - A.2))
  have habsy := abs_snd_le_dist_2d P (A.1 + t * (B.1 - A.1), A.2 + t * (B.2 - A.2))
  dsimp only at habsx habsy
  rw [abs_le] at habsx habsy
  obtain ⟨hax1, hax2⟩ := habsx
  obtain ⟨hay1, hay2⟩ := habsy
  refine ⟨by linarith, by linarith, by linarith, by linarith⟩

/-- The segment distance is bounded below by the perpendicular distance to
the infinite line, in multiplicative form. -/
theorem cross_le_distance_point_to_line_segment_mul (P A B : ℝ × ℝ) (d : ℝ)
    (hd : distance_point_to_line_segment P (A, B) = some d) :
    |(B.1 - A.1) * (P.2 - A.2) - (B.2 - A.2) * (P.1 - A.1)| ≤
      d * dist_2d A B := by
  obtain ⟨t, _, _, heq⟩ := distance_point_to_line_segment_exists P A B
  rw [hd, Option.some.injEq] at heq
  subst heq
  exact cross_le_dist_mul P.1 P.2 A.1 A.2 B.1 B.2 t

theorem one_le_hypot_one (s : ℝ) : 1 ≤ hypot 1 s := by
  unfold hypot
  rw [show (1 : ℝ) = Real.sqrt 1 from Real.sqrt_one.symm]
  apply Real.sqrt_le_sqrt
  rw [Real.sqrt_one]
  nlinarith [sq_nonneg s]

theorem dist_2d_eq_abs_mul_hypot (x0 y0 x1 y1 : ℝ) (hdx : x1 - x0 ≠ 0) :
    dist_2d (x0, y0) (x1, y1) = |x1 - x0| * hypot 1 ((y1 - y0) / (x1 - x0)) := by
  unfold dist_2d hypot
  dsimp only
  rw [show (x0 - x1) ^ 2 + (y0 - y1) ^ 2
      = (x1 - x0) ^ 2 * (1 ^ 2 + ((y1 - y0) / (x1 - x0)) ^ 2) from by
    field_simp
    ring]
  rw [Real.sqrt_mul (sq_nonneg _), Real.sqrt_sq_eq_abs]

/-- A pixel center vertically at least `(width/2 + 1/2) * sec_alpha` away from
the column's line intersection has zero coverage: the rows skipped by the
scan-band optimization contribute nothing. -/
theorem scan_skip_alpha_zero (x0 y0 x1 y1 w x y : ℝ) (hdx : x1 - x0 ≠ 0)
    (hy : y ≤ (y1 - y0) / (x1 - x0) * (x - x0) + y0
            - (w / 2 + 1 / 2) * hypot 1 ((y1 - y0) / (x1 - x0))
        ∨ (y1 - y0) / (x1 - x0) * (x - x0) + y0
            + (w / 2 + 1 / 2) * hypot 1 ((y1 - y0) / (x1 - x0)) ≤ y) :
    calc_alpha (w / 2)
      ((distance_point_to_line_segment (x, y) ((x0, y0), (x1, y1))).getD 0)
      = 0 := by
  obtain ⟨t, _, _, heq⟩ :=
    distance_point_to_line_segment_exists (x, y) (x0, y0) (x1, y1)
  have hcross := cross_le_distance_point_to_line_segment_mul (x, y) (x0, y0)
    (x1, y1) _ heq
  rw [heq, Option.getD_some]
  dsimp only at hcross ⊢
  set d := dist_2d (x, y)
    (x0 + t * (x1 - x0), y0 + t * (y1 - y0)) with hdval
  set σ := hypot 1 ((y1 - y0) / (x1 - x0)) with hσ
  set iy := (y1 - y0) / (x1 - x0) * (x - x0) + y0 with hiy
  have hσ1 : 1 ≤ σ := one_le_hypot_one _
  have hσ0 : 0 < σ := lt_of_lt_of_le zero_lt_one hσ1
  have hcr_eq : (x1 - x0) * (y - y0) - (y1 - y0) * (x - x0)
      = (x1 - x0) * (y - iy) := by
    rw [hiy]
    field_simp
    ring
  have hD := dist_2d_eq_abs_mul_hypot x0 y0 x1 y1 hdx
  rw [hD, hcr_eq, abs_mul, ← hσ,
    show d * (|x1 - x0| * σ) = |x1 - x0| * (d * σ) from by ring] at hcross
  have h1 : |y - iy| ≤ d * σ :=
    le_of_mul_le_mul_left hcross (abs_pos.mpr hdx)
  have hyabs : (w / 2 + 1 / 2) * σ ≤ |y - iy| := by
    rw [le_abs]
    rcases hy with h | h
    · right
      linarith
    · left
      linarith
  have hd2 : w / 2 + 1 / 2 ≤ d := by
    have h2 : (w / 2 + 1 / 2) * σ ≤ d * σ := le_trans hyabs h1
    exact (mul_le_mul_right hσ0).mp h2
  unfold calc_alpha
  rw [if_neg (by linarith), if_pos (by linarith)]

theorem calc_alpha_ne_zero_lt (r d : ℝ) (h : calc_alpha r d ≠ 0) :
    d < r + 1 / 2 := by
  by_contra hc
  push_neg at hc
  apply h
  unfold calc_alpha
  rw [if_neg (by linarith), if_pos hc]

/-- The non-steep line rasterizer body succeeds on `Δx ≠ 0` and positive
width, and returns a patch of the floor/ceil bounding box, at least one pixel
in each dimension. -/
theorem get_line_image_core_box (x0 y0 x1 y1 : ℝ) (color : Pixel) (w : ℝ)
    (hdx : x1 - x0 ≠ 0) (hw : 0 < w) :
    ∃ image,
      get_line_image_core ((x0, y0), (x1, y1)) color w
        = some (image, (⌊min x0 x1 - w / 2⌋, ⌊min y0 y1 - w / 2⌋)) ∧
      image.width = ⌈max x0 x1 + w / 2⌉ - ⌊min x0 x1 - w / 2⌋ ∧
      image.height = ⌈max y0 y1 + w / 2⌉ - ⌊min y0 y1 - w / 2⌋ ∧
      1 ≤ image.width ∧ 1 ≤ image.height := by
  have hx : ⌊min x0 x1 - w / 2⌋ < ⌈max x0 x1 + w / 2⌉ := by
    have h1 := Int.floor_le (min x0 x1 - w / 2)
    have h2 := Int.le_ceil (max x0 x1 + w / 2)
    have h3 : min x0 x1 ≤ max x0 x1 := le_trans (min_le_left _ _) (le_max_left _ _)
    have h4 : ((⌊min x0 x1 - w / 2⌋ : ℤ) : ℝ) < ((⌈max x0 x1 + w / 2⌉ : ℤ) : ℝ) := by
      linarith
    exact_mod_cast h4
  have hy : ⌊min y0 y1 - w / 2⌋ < ⌈max y0 y1 + w / 2⌉ := by
    have h1 := Int.floor_le (min y0 y1 - w / 2)
    have h2 := Int.le_ceil (max y0 y1 + w / 2)
    have h3 : min y0 y1 ≤ max y0 y1 := le_trans (min_le_left _ _) (le_max_left _ _)
    have h4 : ((⌊min y0 y1 - w / 2⌋ : ℤ) : ℝ) < ((⌈max y0 y1 + w / 2⌉ : ℤ) : ℝ) := by
      linarith
    exact_mod_cast h4
  unfold get_line_image_core
  dsimp only
  rw [if_neg hdx, if_neg (by push_neg; constructor <;> omega)]
  refine ⟨_, rfl, rfl, rfl, ?_, ?_⟩ <;> dsimp only <;> omega

/-- Any pixel whose center has nonzero coverage for a segment lies inside the
floor/ceil bounding box padded by half the stroke width. -/
theorem line_coverage_in_box (x0 y0 x1 y1 w : ℝ) (i j : ℤ)
    (hα : calc_alpha (w / 2)
        ((distance_point_to_line_segment ((i : ℝ) + 1 / 2, (j : ℝ) + 1 / 2)
          ((x0, y0), (x1, y1))).getD 0) ≠ 0) :
    ⌊min x0 x1 - w / 2⌋ ≤ i ∧ i < ⌈max x0 x1 + w / 2⌉ ∧
    ⌊min y0 y1 - w / 2⌋ ≤ j ∧ j < ⌈max y0 y1 + w / 2⌉ := by
  obtain ⟨t, _, _, heq⟩ := distance_point_to_line_segment_exists
    ((i : ℝ) + 1 / 2, (j : ℝ) + 1 / 2) (x0, y0) (x1, y1)
  rw [heq, Option.getD_some] at hα
  have hd := calc_alpha_ne_zero_lt _ _ hα
  have hbounds := distance_point_to_line_segment_coord_bounds
    ((i : ℝ) + 1 / 2, (j : ℝ) + 1 / 2) (x0, y0) (x1, y1) _ heq
  dsimp only at hbounds
  obtain ⟨hb1, hb2, hb3, hb4⟩ := hbounds
  have hfx := Int.floor_le (min x0 x1 - w / 2)
  have hcx := Int.le_ceil (max x0 x1 + w / 2)
  have hfy := Int.floor_le (min y0 y1 - w / 2)
  have hcy := Int.le_ceil (max y0 y1 + w / 2)
  refine ⟨?_, ?_, ?_, ?_⟩
  · have h1 : ((⌊min x0 x1 - w / 2⌋ : ℤ) : ℝ) < (i : ℝ) + 1 := by linarith
    have h2 : ⌊min x0 x1 - w / 2⌋ < i + 1 := by exact_mod_cast h1
    omega
  · have h1 : (i : ℝ) < ((⌈max x0 x1 + w / 2⌉ : ℤ) : ℝ) := by linarith
    exact_mod_cast h1
  · have h1 : ((⌊min y0 y1 - w / 2⌋ : ℤ) : ℝ) < (j : ℝ) + 1 := by linarith
    have h2 : ⌊min y0 y1 - w / 2⌋ < j + 1 := by exact_mod_cast h1
    omega
  · have h1 : (j : ℝ) < ((⌈max y0 y1 + w / 2⌉ : ℤ) : ℝ) := by linarith
    exact_mod_cast h1

/-- The segment distance is invariant under swapping the x/y coordinates of
the point and both endpoints. -/
theorem distance_point_to_line_segment_swap (x y x0 y0 x1 y1 : ℝ) :
    distance_point_to_line_segment (x, y) ((x0, y0), (x1, y1))
      = distance_point_to_line_segment (y, x) ((y0, x0), (y1, x1)) := by
  unfold distance_point_to_line_segment dot_product_2d distance_point_to_line_xy
    distance_point_to_line_ABC dist_2d hypot
  dsimp only
  rw [show (x1 - x0) * (x - x0) + (y1 - y0) * (y - y0)
      = (y1 - y0) * (y - y0) + (x1 - x0) * (x - x0) from by ring]
  rw [show (x1 - x0) * (x - x1) + (y1 - y0) * (y - y1)
      = (y1 - y0) * (y - y1) + (x1 - x0) * (x - x1) from by ring]
  rw [show (x - x0) ^ 2 + (y - y0) ^ 2 = (y - y0) ^ 2 + (x - x0) ^ 2 from by ring]
  rw [show (x - x1) ^ 2 + (y - y1) ^ 2 = (y - y1) ^ 2 + (x - x1) ^ 2 from by ring]
  rw [show (y1 - y0) ^ 2 + (x0 - x1) ^ 2 = (x1 - x0) ^ 2 + (y0 - y1) ^ 2 from by
    ring]
  rw [show (y1 - y0) * x + (x0 - x1) * y + (x1 * y0 - x0 * y1)
      = -((x1 - x0) * y + (y0 - y1) * x + (y1 * x0 - y0 * x1)) from by ring]
  rw [neg_div, abs_neg]
  rfl

/-! ## Claims -/

/-- Claim C3: for every radius `r ≥ 0` and every distance `d`, the coverage
function `calc_alpha r d` lies in `[0, 1]`, is monotonically non-increasing in
`d`, equals `1` when `d ≤ r - 0.5`, equals `0` when `d ≥ r + 0.5`, and equals
`r + 0.5 - d` in between. -/
theorem calc_alpha_spec (radius : ℝ) (_hr : 0 ≤ radius) :
    (∀ d, 0 ≤ calc_alpha radius d ∧ calc_alpha radius d ≤ 1) ∧
    (∀ d₁ d₂, d₁ ≤ d₂ → calc_alpha radius d₂ ≤ calc_alpha radius d₁) ∧
    (∀ d, d ≤ radius - 1 / 2 → calc_alpha radius d = 1) ∧
    (∀ d, radius + 1 / 2 ≤ d → calc_alpha radius d = 0) ∧
    (∀ d, radius - 1 / 2 < d → d < radius + 1 / 2 →
      calc_alpha radius d = radius + 1 / 2 - d) := by
  refine ⟨fun d => ?_, fun d₁ d₂ h => ?_, fun d h => ?_, fun d h => ?_,
    fun d h1 h2 => ?_⟩ <;>
    unfold calc_alpha <;> split_ifs <;>
    first
      | (constructor <;> linarith)
      | linarith

/-- Witness for C3 at `radius = 1`. -/
theorem calc_alpha_spec_witness :
    (0 : ℝ) ≤ 1 ∧
    ((∀ d, 0 ≤ calc_alpha 1 d ∧ calc_alpha 1 d ≤ 1) ∧
     (∀ d₁ d₂, d₁ ≤ d₂ → calc_alpha 1 d₂ ≤ calc_alpha 1 d₁) ∧
     (∀ d, d ≤ 1 - 1 / 2 → calc_alpha 1 d = 1) ∧
     (∀ d, 1 + 1 / 2 ≤ d → calc_alpha 1 d = 0) ∧
     (∀ d, 1 - 1 / 2 < d → d < 1 + 1 / 2 →
       calc_alpha 1 d = 1 + 1 / 2 - d)) :=
  ⟨zero_le_one, calc_alpha_spec 1 zero_le_one⟩

/-- Claim C10: on a zero-length segment `(A, A)` the dot-product test
`dot(AB, BP) = 0 ≥ 0` routes `distance_point_to_line_segment` to the endpoint
branch, so it returns the Euclidean distance to `A` and never reaches the
infinite-line formula — which on that segment would be a division by zero
(`distance_point_to_line_xy` raises, i.e. is `none`). -/
theorem distance_point_to_line_segment_degenerate (point A : ℝ × ℝ) :
    ¬ (dot_product_2d (A.1 - A.1, A.2 - A.2) (point.1 - A.1, point.2 - A.2) < 0) ∧
    0 ≤ dot_product_2d (A.1 - A.1, A.2 - A.2) (point.1 - A.1, point.2 - A.2) ∧
    distance_point_to_line_xy point (A, A) = none ∧
    distance_point_to_line_segment point (A, A) = some (dist_2d point A) := by
  have hdot : dot_product_2d (A.1 - A.1, A.2 - A.2)
      (point.1 - A.1, point.2 - A.2) = 0 := by
    simp [dot_product_2d]
  have hxy : distance_point_to_line_xy point (A, A) = none := by
    simp [distance_point_to_line_xy, distance_point_to_line_ABC, hypot]
  refine ⟨by rw [hdot]; exact lt_irrefl 0, le_of_eq hdot.symm, hxy, ?_⟩
  unfold distance_point_to_line_segment
  simp only [hdot]
  norm_num

/-- Claim C7: for any quality-tier string outside the documented enumeration
(`{off, fast, accurate}` for `draw_circle`, `{off, accurate}` for
`draw_line` — in particular `"fast"` is invalid for `draw_line`), the
dispatcher returns a configuration error at the call site — it never falls
back to a default tier, and no write to the destination buffer happens (the
buffer would only be returned through `Except.ok`). -/
theorem draw_invalid_mode_errors (anti_alias : String) :
    (anti_alias ≠ "off" → anti_alias ≠ "fast" → anti_alias ≠ "accurate" →
      ∀ ellipse alpha_composite image center radius color,
        draw_circle ellipse alpha_composite image center radius color anti_alias
          = Except.error DrawError.invalidConfig) ∧
    (anti_alias ≠ "off" → anti_alias ≠ "accurate" →
      ∀ line_native alpha_composite image line_xy width color,
        draw_line line_native alpha_composite image line_xy width color anti_alias
          = Except.error DrawError.invalidConfig) := by
  constructor
  · intro h_off h_fast h_accurate ellipse alpha_composite image center radius color
    simp [draw_circle, h_off, h_fast, h_accurate]
  · intro h_off h_accurate line_native alpha_composite image line_xy width color
    simp [draw_line, h_off, h_accurate]

/-- Witness for C7: the unrecognized tier `"fastest"` for `draw_circle`, and
the tier `"fast"` — valid for circles but outside `draw_line`'s enumeration —
for `draw_line`. -/
theorem draw_invalid_mode_errors_witness :
    ("fastest" ≠ "off" ∧ "fastest" ≠ "fast" ∧ "fastest" ≠ "accurate" ∧
      "fast" ≠ "off" ∧ "fast" ≠ "accurate") ∧
    (∀ ellipse alpha_composite image center radius color,
      draw_circle ellipse alpha_composite image center radius color "fastest"
        = Except.error DrawError.invalidConfig) ∧
    (∀ line_native alpha_composite image line_xy width color,
      draw_line line_native alpha_composite image line_xy width color "fast"
        = Except.error DrawError.invalidConfig) :=
  ⟨⟨by decide, by decide, by decide, by decide, by decide⟩,
    (draw_invalid_mode_errors "fastest").1 (by decide) (by decide) (by decide),
    (draw_invalid_mode_errors "fast").2 (by decide) (by decide)⟩

/-- Claim C4: on a non-degenerate segment `(A, B)`, if the projection of `P`
falls before `A` (`dot(AB, AP) < 0`) the segment distance is the Euclidean
distance to `A`; if it falls at or after `B` (`dot(AB, BP) ≥ 0`) it is the
distance to `B`; otherwise it is the perpendicular distance to the infinite
line through `A` and `B`, i.e. the distance to the orthogonal projection of
`P` onto that line. -/
theorem distance_point_to_line_segment_branches (P A B : ℝ × ℝ) (hAB : A ≠ B) :
    (dot_product_2d (B.1 - A.1, B.2 - A.2) (P.1 - A.1, P.2 - A.2) < 0 →
      distance_point_to_line_segment P (A, B) = some (dist_2d P A)) ∧
    (0 ≤ dot_product_2d (B.1 - A.1, B.2 - A.2) (P.1 - B.1, P.2 - B.2) →
      distance_point_to_line_segment P (A, B) = some (dist_2d P B)) ∧
    (¬ dot_product_2d (B.1 - A.1, B.2 - A.2) (P.1 - A.1, P.2 - A.2) < 0 →
      ¬ 0 ≤ dot_product_2d (B.1 - A.1, B.2 - A.2) (P.1 - B.1, P.2 - B.2) →
      distance_point_to_line_segment P (A, B) =
        some (dist_2d P
          (A.1 + dot_product_2d (B.1 - A.1, B.2 - A.2) (P.1 - A.1, P.2 - A.2)
              / ((B.1 - A.1) ^ 2 + (B.2 - A.2) ^ 2) * (B.1 - A.1),
           A.2 + dot_product_2d (B.1 - A.1, B.2 - A.2) (P.1 - A.1, P.2 - A.2)
              / ((B.1 - A.1) ^ 2 + (B.2 - A.2) ^ 2) * (B.2 - A.2)))) := by
  obtain ⟨px, py⟩ := P
  obtain ⟨ax, ay⟩ := A
  obtain ⟨bx, b2⟩ := B
  have hL : 0 < (bx - ax) ^ 2 + (b2 - ay) ^ 2 := sumsq_pos hAB
  have hrel : dot_product_2d (bx - ax, b2 - ay) (px - ax, py - ay)
      = dot_product_2d (bx - ax, b2 - ay) (px - bx, py - b2)
        + ((bx - ax) ^ 2 + (b2 - ay) ^ 2) := by
    simp only [dot_product_2d]
    ring
  refine ⟨fun h1 => ?_, fun h2 => ?_, fun h1 h2 => ?_⟩
  · unfold distance_point_to_line_segment
    dsimp only
    rw [if_pos h1]
  · unfold distance_point_to_line_segment
    dsimp only
    rw [if_neg (not_lt.mpr (by rw [hrel]; linarith)), if_pos h2]
  · unfold distance_point_to_line_segment
    dsimp only
    rw [if_neg h1, if_neg h2,
      distance_point_to_line_xy_eq px py ax ay bx b2 hAB,
      ← dist_foot_eq px py ax ay bx b2 hAB]
    simp only [dot_product_2d]

/-- Witness for C4 on the segment `((0,0), (10,0))` with `P = (-5, 0)`:
the projection falls before `A`, and the segment distance is the distance
to `A`. -/
theorem distance_point_to_line_segment_branches_witness :
    ((0 : ℝ), (0 : ℝ)) ≠ ((10 : ℝ), (0 : ℝ)) ∧
    dot_product_2d ((10 : ℝ) - 0, (0 : ℝ) - 0) ((-5 : ℝ) - 0, (0 : ℝ) - 0) < 0 ∧
    distance_point_to_line_segment ((-5 : ℝ), 0) (((0 : ℝ), 0), ((10 : ℝ), 0))
      = some (dist_2d ((-5 : ℝ), 0) ((0 : ℝ), 0)) :=
  ⟨by norm_num [Prod.ext_iff], by norm_num [dot_product_2d],
    (distance_point_to_line_segment_branches ((-5 : ℝ), 0) ((0 : ℝ), 0)
      ((10 : ℝ), 0) (by norm_num [Prod.ext_iff])).1 (by norm_num [dot_product_2d])⟩

/-- Claim C8: the per-column scan-band restriction of the line rasterizer
skips only rows with zero coverage: on every non-steep segment with positive
width, `get_line_image` equals the unoptimized variant that scans every row
of every column. -/
theorem line_scan_band_equiv (x0 y0 x1 y1 : ℝ) (color : Pixel) (w : ℝ)
    (hsteep : |y1 - y0| ≤ |x1 - x0|) (hdx : x1 - x0 ≠ 0) (_hw : 0 < w) :
    get_line_image ((x0, y0), (x1, y1)) color w
      = get_line_image_fullscan ((x0, y0), (x1, y1)) color w := by
  unfold get_line_image
  dsimp only
  rw [if_neg (not_lt.mpr hsteep)]
  unfold get_line_image_core get_line_image_fullscan
  dsimp only
  rw [if_neg hdx, if_neg hdx]
  split_ifs with hbad
  · rfl
  · simp only [Option.some.injEq, Prod.mk.injEq, Layer.mk.injEq]
    refine ⟨⟨trivial, trivial, ?_⟩, trivial⟩
    funext xi yi
    set L : ℤ := ⌊min x0 x1 - w / 2⌋ with hLdef
    set T : ℤ := ⌊min y0 y1 - w / 2⌋ with hTdef
    set xr : ℝ := (xi : ℝ) + (L : ℝ) + 1 / 2 with hxrdef
    set yr : ℝ := (yi : ℝ) + (T : ℝ) + 1 / 2 with hyrdef
    set sl : ℝ := (y1 - y0) / (x1 - x0) with hsldef
    set σ : ℝ := hypot 1 sl with hσdef
    set iy : ℝ := sl * (xr - x0) + y0 with hiydef
    set dn : ℝ := iy - (w / 2 + 1 / 2) * σ with hdndef
    set up : ℝ := iy + (w / 2 + 1 / 2) * σ with hupdef
    split_ifs with hx hband hα hfullA hfullB hfullC hαC
    all_goals try rfl
    · -- scanned by the band but outside the patch rows: impossible
      exact absurd ⟨le_trans (le_max_left 0 _) hband.1,
        lt_of_lt_of_le hband.2 (min_le_left _ _)⟩ hfullB
    · -- skipped by the band, inside the patch rows, nonzero coverage:
      -- contradiction with `scan_skip_alpha_zero`
      exfalso
      apply hαC
      apply scan_skip_alpha_zero x0 y0 x1 y1 w xr yr hdx
      rcases not_and_or.mp hband with h | h
      · rcases lt_max_iff.mp (not_le.mp h) with h' | h'
        · exact absurd hfullC.1 (not_le.mpr h')
        · have h'' : (yi : ℝ) + 1 ≤ (pyRound dn : ℝ) - (T : ℝ) := by
            have : yi + 1 ≤ pyRound dn - T := by omega
            exact_mod_cast this
          have hpr := pyRound_le dn
          left
          rw [← hsldef, ← hσdef, ← hiydef, ← hdndef, hyrdef]
          linarith
      · rcases min_le_iff.mp (not_lt.mp h) with h' | h'
        · exact absurd hfullC.2 (not_lt.mpr h')
        · have h'' : (pyRound up : ℝ) - (T : ℝ) ≤ (yi : ℝ) := by
            exact_mod_cast h'
          have hpr := le_pyRound up
          right
          rw [← hsldef, ← hσdef, ← hiydef, ← hupdef, hyrdef]
          linarith

/-- Witness for C8 on the segment `((0,0), (2,1))` with width `1`. -/
theorem line_scan_band_equiv_witness :
    |(1 : ℝ) - 0| ≤ |(2 : ℝ) - 0| ∧ ((2 : ℝ) - 0 ≠ 0) ∧ (0 : ℝ) < 1 ∧
    get_line_image (((0 : ℝ), (0 : ℝ)), ((2 : ℝ), (1 : ℝ))) ⟨255, 0, 0, 255⟩ 1
      = get_line_image_fullscan (((0 : ℝ), (0 : ℝ)), ((2 : ℝ), (1 : ℝ)))
          ⟨255, 0, 0, 255⟩ 1 :=
  ⟨by norm_num, by norm_num, one_pos,
    line_scan_band_equiv 0 0 2 1 ⟨255, 0, 0, 255⟩ 1 (by norm_num) (by norm_num)
      one_pos⟩

/-- Counterexample for C5 as stated: a circle of radius `0` at the integer
center `(0, 0)` (a legal input with radius ≥ 0) returns a patch of width and
height `0`, violating the claimed `width ≥ 1 ∧ height ≥ 1`. -/
theorem circle_patch_zero_width :
    (0 : ℝ) ≤ 0 ∧
    Option.map (fun p => (p.1.width, p.1.height))
        (_get_circle_image ((0 : ℝ), (0 : ℝ)) 0 ⟨255, 0, 0, 255⟩)
      = some ((0 : ℤ), (0 : ℤ)) := by
  refine ⟨le_refl 0, ?_⟩
  unfold _get_circle_image
  dsimp only
  norm_num

/-- Claim C5, amended: the returned patch always has nonnegative dimensions,
has `width ≥ 1 ∧ height ≥ 1` whenever the radius (resp. stroke width) is
strictly positive and the rasterizer returns at all, and its bounding box
conservatively contains every pixel whose center has nonzero coverage under
the coverage model.  (The original claim's unconditional `≥ 1` fails at
radius 0, see `circle_patch_zero_width`.) -/
theorem patch_bounding_box :
    (∀ (cx cy radius : ℝ) (color : Pixel), 0 ≤ radius →
      ∃ image destination,
        _get_circle_image (cx, cy) radius color = some (image, destination) ∧
        0 ≤ image.width ∧ 0 ≤ image.height ∧
        (0 < radius → 1 ≤ image.width ∧ 1 ≤ image.height) ∧
        (∀ i j : ℤ,
          calc_alpha radius
            (dist_2d (cx, cy) ((i : ℝ) + 1 / 2, (j : ℝ) + 1 / 2)) ≠ 0 →
          destination.1 ≤ i ∧ i < destination.1 + image.width ∧
          destination.2 ≤ j ∧ j < destination.2 + image.height)) ∧
    (∀ (x0 y0 x1 y1 : ℝ) (color : Pixel) (w : ℝ), 0 < w →
      ((x0, y0) : ℝ × ℝ) ≠ (x1, y1) →
      ∃ image destination,
        get_line_image ((x0, y0), (x1, y1)) color w = some (image, destination) ∧
        1 ≤ image.width ∧ 1 ≤ image.height ∧
        (∀ i j : ℤ,
          calc_alpha (w / 2)
            ((distance_point_to_line_segment ((i : ℝ) + 1 / 2, (j : ℝ) + 1 / 2)
              ((x0, y0), (x1, y1))).getD 0) ≠ 0 →
          destination.1 ≤ i ∧ i < destination.1 + image.width ∧
          destination.2 ≤ j ∧ j < destination.2 + image.height)) := by
  constructor
  · intro cx cy radius color hr
    have hfl := Int.floor_le (cx - radius)
    have hfc := Int.le_ceil (cx + radius)
    have hgl := Int.floor_le (cy - radius)
    have hgc := Int.le_ceil (cy + radius)
    have hLR : ⌊cx - radius⌋ ≤ ⌈cx + radius⌉ := by
      have h : ((⌊cx - radius⌋ : ℤ) : ℝ) ≤ ((⌈cx + radius⌉ : ℤ) : ℝ) := by linarith
      exact_mod_cast h
    have hTB : ⌊cy - radius⌋ ≤ ⌈cy + radius⌉ := by
      have h : ((⌊cy - radius⌋ : ℤ) : ℝ) ≤ ((⌈cy + radius⌉ : ℤ) : ℝ) := by linarith
      exact_mod_cast h
    unfold _get_circle_image
    dsimp only
    rw [if_neg (by push_neg; constructor <;> omega)]
    refine ⟨_, _, rfl, by dsimp only; omega, by dsimp only; omega, ?_, ?_⟩
    · intro hpos
      have hLT : ⌊cx - radius⌋ < ⌈cx + radius⌉ := by
        have h : ((⌊cx - radius⌋ : ℤ) : ℝ) < ((⌈cx + radius⌉ : ℤ) : ℝ) := by
          linarith
        exact_mod_cast h
      have hTB' : ⌊cy - radius⌋ < ⌈cy + radius⌉ := by
        have h : ((⌊cy - radius⌋ : ℤ) : ℝ) < ((⌈cy + radius⌉ : ℤ) : ℝ) := by
          linarith
        exact_mod_cast h
      constructor <;> dsimp only <;> omega
    · intro i j hα
      have hd := calc_alpha_ne_zero_lt _ _ hα
      have habsx := abs_fst_le_dist_2d (cx, cy) ((i : ℝ) + 1 / 2, (j : ℝ) + 1 / 2)
      have habsy := abs_snd_le_dist_2d (cx, cy) ((i : ℝ) + 1 / 2, (j : ℝ) + 1 / 2)
      dsimp only at habsx habsy
      have hx' := lt_of_le_of_lt habsx hd
      have hy' := lt_of_le_of_lt habsy hd
      rw [abs_lt] at hx' hy'
      have hi1 : ⌊cx - radius⌋ ≤ i := by
        have h : ((⌊cx - radius⌋ : ℤ) : ℝ) < (i : ℝ) + 1 := by
          obtain ⟨_, h2⟩ := hx'
          linarith
        have h' : ⌊cx - radius⌋ < i + 1 := by exact_mod_cast h
        omega
      have hi2 : i < ⌈cx + radius⌉ := by
        have h : (i : ℝ) < ((⌈cx + radius⌉ : ℤ) : ℝ) := by
          obtain ⟨h1, _⟩ := hx'
          linarith
        exact_mod_cast h
      have hj1 : ⌊cy - radius⌋ ≤ j := by
        have h : ((⌊cy - radius⌋ : ℤ) : ℝ) < (j : ℝ) + 1 := by
          obtain ⟨_, h2⟩ := hy'
          linarith
        have h' : ⌊cy - radius⌋ < j + 1 := by exact_mod_cast h
        omega
      have hj2 : j < ⌈cy + radius⌉ := by
        have h : (j : ℝ) < ((⌈cy + radius⌉ : ℤ) : ℝ) := by
          obtain ⟨h1, _⟩ := hy'
          linarith
        exact_mod_cast h
      refine ⟨hi1, ?_, hj1, ?_⟩ <;> dsimp only <;> omega
  · intro x0 y0 x1 y1 color w hw hne
    by_cases hsteep : |y1 - y0| > |x1 - x0|
    · have hdy : y1 - y0 ≠ 0 := by
        intro hc
        rw [hc, abs_zero] at hsteep
        linarith [abs_nonneg (x1 - x0)]
      obtain ⟨im, heq, hW, hH, h1, h2⟩ :=
        get_line_image_core_box y0 x0 y1 x1 color w hdy hw
      unfold get_line_image
      dsimp only
      rw [if_pos hsteep, heq]
      dsimp only
      refine ⟨transverse im, _, rfl, ?_, ?_, ?_⟩
      · show 1 ≤ im.height
        exact h2
      · show 1 ≤ im.width
        exact h1
      · intro i j hα
        rw [distance_point_to_line_segment_swap] at hα
        obtain ⟨hb1, hb2, hb3, hb4⟩ := line_coverage_in_box y0 x0 y1 x1 w j i hα
        unfold transverse
        dsimp only
        rw [hW, hH]
        refine ⟨hb3, ?_, hb1, ?_⟩ <;> omega
    · push_neg at hsteep
      have hdx : x1 - x0 ≠ 0 := by
        intro hc
        rw [hc, abs_zero] at hsteep
        have hy0 : y1 - y0 = 0 :=
          abs_eq_zero.mp (le_antisymm hsteep (abs_nonneg _))
        apply hne
        rw [Prod.mk.injEq]
        constructor <;> linarith
      obtain ⟨im, heq, hW, hH, h1, h2⟩ :=
        get_line_image_core_box x0 y0 x1 y1 color w hdx hw
      unfold get_line_image
      dsimp only
      rw [if_neg (not_lt.mpr hsteep), heq]
      refine ⟨im, _, rfl, h1, h2, ?_⟩
      intro i j hα
      obtain ⟨hb1, hb2, hb3, hb4⟩ := line_coverage_in_box x0 y0 x1 y1 w i j hα
      dsimp only
      rw [hW, hH]
      refine ⟨hb1, ?_, hb3, ?_⟩ <;> omega

/-- Witness for C5 (amended) at the circle `center (0,0), radius 1` and the
segment `((0,0), (2,1))` with width 1. -/
theorem patch_bounding_box_witness :
    (0 : ℝ) ≤ 1 ∧ (0 : ℝ) < 1 ∧
    ((((0 : ℝ), (0 : ℝ)) : ℝ × ℝ) ≠ ((2 : ℝ), (1 : ℝ))) ∧
    (∃ image destination,
      _get_circle_image ((0 : ℝ), (0 : ℝ)) 1 ⟨255, 0, 0, 255⟩
        = some (image, destination) ∧
      0 ≤ image.width ∧ 0 ≤ image.height ∧
      ((0 : ℝ) < 1 → 1 ≤ image.width ∧ 1 ≤ image.height) ∧
      (∀ i j : ℤ,
        calc_alpha 1
          (dist_2d ((0 : ℝ), (0 : ℝ)) ((i : ℝ) + 1 / 2, (j : ℝ) + 1 / 2)) ≠ 0 →
        destination.1 ≤ i ∧ i < destination.1 + image.width ∧
        destination.2 ≤ j ∧ j < destination.2 + image.height)) ∧
    (∃ image destination,
      get_line_image (((0 : ℝ), (0 : ℝ)), ((2 : ℝ), (1 : ℝ))) ⟨255, 0, 0, 255⟩ 1
        = some (image, destination) ∧
      1 ≤ image.width ∧ 1 ≤ image.height ∧
      (∀ i j : ℤ,
        calc_alpha (1 / 2)
          ((distance_point_to_line_segment ((i : ℝ) + 1 / 2, (j : ℝ) + 1 / 2)
            (((0 : ℝ), (0 : ℝ)), ((2 : ℝ), (1 : ℝ)))).getD 0) ≠ 0 →
        destination.1 ≤ i ∧ i < destination.1 + image.width ∧
        destination.2 ≤ j ∧ j < destination.2 + image.height)) :=
  ⟨zero_le_one, zero_lt_one, by norm_num [Prod.ext_iff],
    patch_bounding_box.1 0 0 1 ⟨255, 0, 0, 255⟩ zero_le_one,
    patch_bounding_box.2 0 0 2 1 ⟨255, 0, 0, 255⟩ 1 zero_lt_one
      (by norm_num [Prod.ext_iff])⟩

/-- Claim C9: circle rasterization is translation-invariant over whole-pixel
shifts: the patch computed for center `(1/2 + dx, 1/2 + dy)` has the same
per-pixel values as the canonical stamp for center `(1/2, 1/2)`, with the
offset shifted by `(dx, dy)`. -/
theorem circle_translation_invariant (radius : ℝ) (color : Pixel) (dx dy : ℤ)
    (_hr : 0 ≤ radius) :
    _get_circle_image (1 / 2 + (dx : ℝ), 1 / 2 + (dy : ℝ)) radius color
      = Option.map (fun p => (p.1, (p.2.1 + dx, p.2.2 + dy)))
          (_get_circle_image (1 / 2, 1 / 2) radius color) := by
  have hfl : ⌊1 / 2 + (dx : ℝ) - radius⌋ = ⌊(1 : ℝ) / 2 - radius⌋ + dx := by
    rw [show (1 : ℝ) / 2 + (dx : ℝ) - radius = 1 / 2 - radius + (dx : ℝ) from by
      ring, Int.floor_add_int]
  have hfr : ⌈1 / 2 + (dx : ℝ) + radius⌉ = ⌈(1 : ℝ) / 2 + radius⌉ + dx := by
    rw [show (1 : ℝ) / 2 + (dx : ℝ) + radius = 1 / 2 + radius + (dx : ℝ) from by
      ring, Int.ceil_add_int]
  have hgl : ⌊1 / 2 + (dy : ℝ) - radius⌋ = ⌊(1 : ℝ) / 2 - radius⌋ + dy := by
    rw [show (1 : ℝ) / 2 + (dy : ℝ) - radius = 1 / 2 - radius + (dy : ℝ) from by
      ring, Int.floor_add_int]
  have hgr : ⌈1 / 2 + (dy : ℝ) + radius⌉ = ⌈(1 : ℝ) / 2 + radius⌉ + dy := by
    rw [show (1 : ℝ) / 2 + (dy : ℝ) + radius = 1 / 2 + radius + (dy : ℝ) from by
      ring, Int.ceil_add_int]
  unfold _get_circle_image
  dsimp only
  rw [hfl, hfr, hgl, hgr]
  simp only [add_sub_add_right_eq_sub]
  split_ifs with hbad
  · rfl
  · simp only [Option.map_some', Option.some.injEq, Prod.mk.injEq, Layer.mk.injEq]
    refine ⟨⟨trivial, trivial, ?_⟩, trivial⟩
    funext xi yi
    have hdist : dist_2d (1 / 2 + (dx : ℝ), 1 / 2 + (dy : ℝ))
        ((xi : ℝ) + ((⌊(1 : ℝ) / 2 - radius⌋ + dx : ℤ) : ℝ) + 1 / 2,
         (yi : ℝ) + ((⌊(1 : ℝ) / 2 - radius⌋ + dy : ℤ) : ℝ) + 1 / 2)
        = dist_2d (1 / 2, 1 / 2)
          ((xi : ℝ) + ((⌊(1 : ℝ) / 2 - radius⌋ : ℤ) : ℝ) + 1 / 2,
           (yi : ℝ) + ((⌊(1 : ℝ) / 2 - radius⌋ : ℤ) : ℝ) + 1 / 2) := by
      unfold dist_2d
      dsimp only
      push_cast
      congr 1
      ring
    rw [hdist]

/-- Witness for C9 at radius `1`, shift `(3, -2)`. -/
theorem circle_translation_invariant_witness :
    (0 : ℝ) ≤ 1 ∧
    _get_circle_image (1 / 2 + ((3 : ℤ) : ℝ), 1 / 2 + ((-2 : ℤ) : ℝ)) 1
        ⟨255, 0, 0, 255⟩
      = Option.map (fun p => (p.1, (p.2.1 + (3 : ℤ), p.2.2 + (-2 : ℤ))))
          (_get_circle_image (1 / 2, 1 / 2) 1 ⟨255, 0, 0, 255⟩) :=
  ⟨zero_le_one, circle_translation_invariant 1 ⟨255, 0, 0, 255⟩ 3 (-2) zero_le_one⟩

/-- Claim C2 (code bug): degenerate geometry crashes the rasterizers.  A
zero-length segment reaches `slope = Δy/Δx` with `Δx = 0` (the steepness test
`|0| > |0|` fails to divert it) and raises `ZeroDivisionError`; a radius `-2`
circle computes a negative bounding-box size and `Image.new` raises
`ValueError`.  Both are modelled by `none`. -/
theorem degenerate_geometry_crashes :
    get_line_image (((1 : ℝ), (1 : ℝ)), ((1 : ℝ), (1 : ℝ))) ⟨0, 0, 0, 255⟩ 1
      = none ∧
    _get_circle_image ((1 / 2 : ℝ), (1 / 2 : ℝ)) (-2) ⟨0, 0, 0, 255⟩ = none := by
  constructor
  · unfold get_line_image
    dsimp only
    rw [if_neg (by norm_num)]
    unfold get_line_image_core
    dsimp only
    rw [if_pos (by norm_num)]
  · unfold _get_circle_image
    dsimp only
    rw [if_pos]
    left
    have h1 : ⌈(1 : ℝ) / 2 + -2⌉ = -1 := by
      rw [Int.ceil_eq_iff]
      push_cast
      norm_num
    have h2 : ⌊(1 : ℝ) / 2 - -2⌋ = 2 := by
      rw [Int.floor_eq_iff]
      push_cast
      norm_num
    rw [h1, h2]
    norm_num

/-- Claim C1 (code bug): the compositing special case demanded by the spec is
missing.  At `fg = bg = (0,0,0,0)` and coverage `alpha = 1/2` (strictly
between 0 and 1) the composited result alpha `mix_color_alpha` is zero, and
`mix_color` raises `ZeroDivisionError` (modelled by `none`) instead of
returning a fully-transparent pixel. -/
theorem mix_color_zero_result_alpha_divzero :
    (0 : ℚ) < 1 / 2 ∧ (1 / 2 : ℚ) < 1 ∧
    mix_color_alpha 0 0 (1 / 2) = 0 ∧
    mix_color ((0 : ℚ), 0, 0, 0) (0, 0, 0, 0) (1 / 2) = none := by
  have h2 : mix_color_number (0 : ℚ) 0 0 0 (1 / 2) = none := by
    norm_num [mix_color_number]
  refine ⟨by norm_num, by norm_num, by norm_num [mix_color_alpha], ?_⟩
  norm_num [mix_color, h2]

/-- Claim C6 (code bug): the steep-case axis swap applies `TRANSVERSE` (an
anti-diagonal flip), not the transpose.  For the steep segment
`((1/2, 1/10), (1/2, 3/2))` with width 1 and opaque white, the returned
patch's pixel `(0, 0)` has alpha 255 (it is the swapped-call patch's pixel
`(width-1, height-1) = (2, 0)`), while the swapped-call patch's pixel
`(0, 0)` has alpha 102 — so the claimed relation "returned pixel `(x, y)`
equals swapped-call pixel `(y, x)`" fails at `(0, 0)`, and steep lines are
rendered flipped within their patch. -/
theorem line_image_transverse_mismatch :
    Option.map (fun r => r.1.pix 0 0)
      (get_line_image (((1 : ℝ)/2, (1 : ℝ)/10), ((1 : ℝ)/2, (3 : ℝ)/2))
        ⟨255, 255, 255, 255⟩ 1) = some ⟨255, 255, 255, 255⟩ ∧
    Option.map (fun r => r.1.pix 0 0)
      (get_line_image (((1 : ℝ)/10, (1 : ℝ)/2), ((3 : ℝ)/2, (1 : ℝ)/2))
        ⟨255, 255, 255, 255⟩ 1) = some ⟨255, 255, 255, 102⟩ ∧
    ((⟨255, 255, 255, 255⟩ : Pixel) ≠ ⟨255, 255, 255, 102⟩) := by
  have hA : ⌊min ((1 : ℝ)/10) ((3 : ℝ)/2) - 1/2⌋ = -1 := by norm_num
  have hB : ⌈max ((1 : ℝ)/10) ((3 : ℝ)/2) + 1/2⌉ = 2 := by norm_num
  have hC : ⌊min ((1 : ℝ)/2) ((1 : ℝ)/2) - 1/2⌋ = 0 := by norm_num
  have hD : ⌈max ((1 : ℝ)/2) ((1 : ℝ)/2) + 1/2⌉ = 1 := by norm_num
  have hsl : ((1 : ℝ)/2 - 1/2) / ((3 : ℝ)/2 - 1/10) = 0 := by norm_num
  have hhyp : hypot (1 : ℝ) 0 = 1 := by
    unfold hypot
    norm_num
  have hpr1 : pyRound (-(1/2) : ℝ) = 0 := by
    unfold pyRound
    rw [show ⌊(-(1/2) : ℝ)⌋ = -1 from by norm_num]
    norm_num
  have hpr2 : pyRound ((3 : ℝ)/2) = 2 := by
    unfold pyRound
    rw [show ⌊(3 : ℝ)/2⌋ = 1 from by norm_num]
    norm_num
  have hyv : ((0 : ℤ) : ℝ) + ((0 : ℤ) : ℝ) + 1/2 = 1/2 := by
    push_cast
    norm_num
  refine ⟨?_, ?_, by decide⟩
  · unfold get_line_image
    dsimp only
    rw [if_pos (by norm_num : |(3 : ℝ)/2 - 1/10| > |(1 : ℝ)/2 - 1/2|)]
    unfold get_line_image_core
    dsimp only
    rw [if_neg (by norm_num : ¬((3 : ℝ)/2 - 1/10 = 0))]
    rw [hA, hB, hC, hD, hsl, hhyp]
    rw [if_neg (by decide : ¬((2 : ℤ) - -1 < 0 ∨ (1 : ℤ) - 0 < 0))]
    dsimp only
    rw [Option.map_some']
    dsimp only
    unfold transverse
    dsimp only
    rw [if_pos (by decide :
      (0 : ℤ) ≤ 0 ∧ (0 : ℤ) < 1 - 0 ∧ (0 : ℤ) ≤ 0 ∧ (0 : ℤ) < 2 - -1)]
    rw [show ((2 : ℤ) - -1 - 1 - 0) = 2 from by decide,
      show ((1 : ℤ) - 0 - 1 - 0) = 0 from by decide]
    rw [if_pos (by decide : (0 : ℤ) ≤ 2 ∧ (2 : ℤ) < 2 - -1)]
    have hxv2 : ((2 : ℤ) : ℝ) + ((-1 : ℤ) : ℝ) + 1/2 = 3/2 := by
      push_cast
      norm_num
    rw [hxv2, hyv]
    have hdn2 : (0 : ℝ) * (3/2 - 1/10) + 1/2 - (1/2 + 1/2) * 1 = -(1/2) := by
      norm_num
    have hup2 : (0 : ℝ) * (3/2 - 1/10) + 1/2 + (1/2 + 1/2) * 1 = 3/2 := by
      norm_num
    rw [hdn2, hup2, hpr1, hpr2]
    rw [if_pos (by decide :
      max (0 : ℤ) (0 - 0) ≤ 0 ∧ (0 : ℤ) < min (1 - 0) (2 - 0))]
    have hseg2 : distance_point_to_line_segment (3/2, 1/2)
        (((1 : ℝ)/10, (1 : ℝ)/2), ((3 : ℝ)/2, (1 : ℝ)/2)) = some 0 := by
      unfold distance_point_to_line_segment dot_product_2d
      dsimp only
      rw [if_neg (by norm_num :
        ¬(((3 : ℝ)/2 - 1/10) * ((3 : ℝ)/2 - 1/10)
          + ((1 : ℝ)/2 - 1/2) * ((1 : ℝ)/2 - 1/2) < 0))]
      rw [if_pos (by norm_num :
        (0 : ℝ) ≤ ((3 : ℝ)/2 - 1/10) * ((3 : ℝ)/2 - 3/2)
          + ((1 : ℝ)/2 - 1/2) * ((1 : ℝ)/2 - 1/2))]
      unfold dist_2d
      dsimp only
      rw [show ((3/2 : ℝ) - 3/2)^2 + ((1/2 : ℝ) - 1/2)^2 = 0 from by norm_num,
        Real.sqrt_zero]
    rw [hseg2, Option.getD_some]
    have hca2 : calc_alpha ((1 : ℝ)/2) 0 = 1 := by
      unfold calc_alpha
      rw [if_pos (by norm_num : (0 : ℝ) ≤ 1/2 - 1/2)]
    rw [hca2, if_neg (by norm_num : ¬((1 : ℝ) = 0))]
    have hval2 : ((255 : ℤ) : ℝ) * 1 = 255 := by
      push_cast
      norm_num
    rw [hval2]
    have hpr4 : pyRound (255 : ℝ) = 255 := by
      unfold pyRound
      rw [show ⌊(255 : ℝ)⌋ = 255 from by norm_num]
      norm_num
    rw [hpr4]
  · unfold get_line_image
    dsimp only
    rw [if_neg (by norm_num : ¬(|(1 : ℝ)/2 - 1/2| > |(3 : ℝ)/2 - 1/10|))]
    unfold get_line_image_core
    dsimp only
    rw [if_neg (by norm_num : ¬((3 : ℝ)/2 - 1/10 = 0))]
    rw [hA, hB, hC, hD, hsl, hhyp]
    rw [if_neg (by decide : ¬((2 : ℤ) - -1 < 0 ∨ (1 : ℤ) - 0 < 0))]
    rw [Option.map_some']
    dsimp only
    rw [if_pos (by decide : (0 : ℤ) ≤ 0 ∧ (0 : ℤ) < 2 - -1)]
    have hxv : ((0 : ℤ) : ℝ) + ((-1 : ℤ) : ℝ) + 1/2 = -(1/2) := by
      push_cast
      norm_num
    rw [hxv, hyv]
    have hdn : (0 : ℝ) * (-(1/2) - 1/10) + 1/2 - (1/2 + 1/2) * 1 = -(1/2) := by
      norm_num
    have hup : (0 : ℝ) * (-(1/2) - 1/10) + 1/2 + (1/2 + 1/2) * 1 = 3/2 := by
      norm_num
    rw [hdn, hup, hpr1, hpr2]
    rw [if_pos (by decide :
      max (0 : ℤ) (0 - 0) ≤ 0 ∧ (0 : ℤ) < min (1 - 0) (2 - 0))]
    have hseg : distance_point_to_line_segment (-(1/2), 1/2)
        (((1 : ℝ)/10, (1 : ℝ)/2), ((3 : ℝ)/2, (1 : ℝ)/2)) = some (3/5) := by
      unfold distance_point_to_line_segment dot_product_2d
      dsimp only
      rw [if_pos (by norm_num :
        ((3 : ℝ)/2 - 1/10) * (-(1/2) - 1/10)
          + ((1 : ℝ)/2 - 1/2) * (1/2 - 1/2) < 0)]
      unfold dist_2d
      dsimp only
      rw [show ((-(1/2) : ℝ) - 1/10)^2 + ((1/2 : ℝ) - 1/2)^2 = (3/5)^2 from by
        norm_num]
      rw [Real.sqrt_sq (by norm_num : (0 : ℝ) ≤ 3/5)]
    rw [hseg, Option.getD_some]
    have hca : calc_alpha ((1 : ℝ)/2) (3/5) = 2/5 := by
      unfold calc_alpha
      rw [if_neg (by norm_num), if_neg (by norm_num)]
      norm_num
    rw [hca]
    rw [if_neg (by norm_num : ¬((2 : ℝ)/5 = 0))]
    have hval : ((255 : ℤ) : ℝ) * (2/5) = 102 := by
      push_cast
      norm_num
    rw [hval]
    have hpr3 : pyRound (102 : ℝ) = 102 := by
      unfold pyRound
      rw [show ⌊(102 : ℝ)⌋ = 102 from by norm_num]
      norm_num
    rw [hpr3]

end PicMounter
